import Mathlib

set_option maxRecDepth 8192

/-!
Shallow embedding of the citation / assembly core of the repository
(`auto_paper/services/vancouver.py`, `auto_paper/services/similarity.py`,
the data model of `auto_paper/models.py` and `auto_paper/utils.py`).

Python `float` scores are modelled as exact rationals; Python machine-level
behaviour that the claims exercise (64-bit masking in the rolling hash) is
modelled on `Nat` with explicit `% 2^64`.  Python `str.strip` / the regex
class `\s` are modelled over the six ASCII whitespace characters.
-/

/-- Data model: `Citation` from `auto_paper/models.py`. -/
structure Citation where
  pmid : Option String
  doi : Option String
  title : String
  authors : List String
  journal : Option String
  journal_iso_abbrev : Option String
  year : Option Int
  volume : Option String
  issue : Option String
  pages : Option String
  publication_types : List String
  url : Option String
  abstract : Option String
deriving DecidableEq

/-- Data model: `CitationUse` from `auto_paper/models.py`. -/
structure CitationUse where
  citation : Citation
  use_for : List String
  priority : Int
deriving DecidableEq

/-- Data model: `CitationPlan` from `auto_paper/models.py`. -/
structure CitationPlan where
  max_count : Nat
  selected : List CitationUse
deriving DecidableEq

/-- Data model: `ReferencesSpec` from `auto_paper/models.py` (fields used by the core). -/
structure ReferencesSpec where
  style : String
  max_count : Nat
  in_text_format : String
deriving DecidableEq

/-- Data model: `JournalSpec` from `auto_paper/models.py` (fields used by the core). -/
structure JournalSpec where
  journal_name : String
  article_type : String
  references : ReferencesSpec
deriving DecidableEq

/-- The six ASCII whitespace characters recognised by Python `str.strip` and `\s`. -/
def isPyWS (c : Char) : Bool :=
  c == ' ' || c == '\t' || c == '\n' || c == '\r' || c == '\x0b' || c == '\x0c'

/-- Python `str.strip()` on a character list. -/
def pyStripL (l : List Char) : List Char :=
  ((l.dropWhile isPyWS).reverse.dropWhile isPyWS).reverse

/-- Python `str.strip()`. -/
def pyStrip (s : String) : String :=
  String.mk (pyStripL s.data)

/-- Python `text.replace("\r\n", "\n")` (leftmost, non-overlapping). -/
def replaceCRLF : List Char → List Char
  | [] => []
  | [c] => [c]
  | a :: b :: rest =>
    if a = '\r' ∧ b = '\n' then '\n' :: replaceCRLF rest
    else a :: replaceCRLF (b :: rest)

/-- Python `re.sub(r"[ \t]+", " ", text)`: every maximal run of spaces/tabs
becomes a single space.  The `Bool` state records being inside a run. -/
def collapseSpaceTabAux : Bool → List Char → List Char
  | _, [] => []
  | inRun, c :: cs =>
    if c == ' ' || c == '\t' then
      if inRun then collapseSpaceTabAux true cs else ' ' :: collapseSpaceTabAux true cs
    else c :: collapseSpaceTabAux false cs

def collapseSpaceTab (l : List Char) : List Char := collapseSpaceTabAux false l

/-- Python `re.sub(r"\n{3,}", "\n\n", text)`: a maximal run of `n ≥ 3` newlines
becomes two newlines; shorter runs are untouched.  Equivalently, the `i`-th
newline of a run is kept only for `i ≤ 2`; the counter is that `i`. -/
def collapseNLAux : Nat → List Char → List Char
  | _, [] => []
  | cnt, c :: cs =>
    if c == '\n' then
      if cnt + 1 ≤ 2 then '\n' :: collapseNLAux (cnt + 1) cs else collapseNLAux (cnt + 1) cs
    else c :: collapseNLAux 0 cs

def collapseNewlines (l : List Char) : List Char := collapseNLAux 0 l

/-- `normalize_whitespace` from `auto_paper/utils.py`. -/
def normalize_whitespace (s : String) : String :=
  String.mk (pyStripL (collapseNewlines (collapseSpaceTab (replaceCRLF s.data))))

/-- Python `str.lower()` (character-wise; ASCII letters are the ones the
tokenizer can subsequently match). -/
def pyLower (s : String) : String := String.mk (s.data.map Char.toLower)

/-- Membership in the regex class `[a-z0-9]`. -/
def isAlnumLower (c : Char) : Bool :=
  ('a' ≤ c && c ≤ 'z') || ('0' ≤ c && c ≤ '9')

/-- Python `re.findall(r"[a-z0-9]+", text)`: the maximal runs of `[a-z0-9]`
characters.  The state holds the (reversed) run currently being read. -/
def splitAlnumAux : Option (List Char) → List Char → List (List Char)
  | none, [] => []
  | some acc, [] => [acc.reverse]
  | none, c :: cs =>
    if isAlnumLower c then splitAlnumAux (some [c]) cs else splitAlnumAux none cs
  | some acc, c :: cs =>
    if isAlnumLower c then splitAlnumAux (some (c :: acc)) cs
    else acc.reverse :: splitAlnumAux none cs

def splitAlnumRuns (l : List Char) : List (List Char) := splitAlnumAux none l

/-- `_tokens` from `auto_paper/services/similarity.py`. -/
def _tokens (text : String) : List String :=
  (splitAlnumRuns (normalize_whitespace (pyLower text)).data).map (fun l => String.mk l)

/-- One token's contribution in `_hash_ngram`: the inner character loop then
the `0xFF` separator step, each as FNV-style `xor`/multiply masked to 64 bits. -/
def hashToken (h : Nat) (tok : String) : Nat :=
  let h := tok.data.foldl
    (fun h c => ((h ^^^ c.toNat) * 1099511628211) % 18446744073709551616) h
  ((h ^^^ 255) * 1099511628211) % 18446744073709551616

/-- `_hash_ngram(tokens, start, k)` from `auto_paper/services/similarity.py`. -/
def _hash_ngram (toks : List String) (start k : Nat) : Nat :=
  ((toks.drop start).take k).foldl hashToken 1469598103934665603

/-- The list `hashes` built in `winnow_fingerprints`: one hash per `k`-shingle. -/
def shingleHashes (toks : List String) (k : Nat) : List Nat :=
  (List.range (toks.length - k + 1)).map (fun i => _hash_ngram toks i k)

/-- Python `min` over a list (the empty case never occurs in reachable code). -/
def minList : List Nat → Nat
  | [] => 0
  | a :: l => l.foldl Nat.min a

/-- Python `list.index` (first occurrence; absence never occurs in reachable code). -/
def indexOfFirst (a : Nat) : List Nat → Nat
  | [] => 0
  | b :: l => if b == a then 0 else indexOfFirst a l + 1

/-- State of the winnowing loop: `fps`, `min_hash` (initially `None`),
`min_pos` (initially `-1`). -/
structure WinnowState where
  fps : Finset Nat
  minHash : Option Nat
  minPos : Int

/-- One iteration of the winnowing loop of `winnow_fingerprints`. -/
def winnowStep (hashes : List Nat) (window : Nat) (s : WinnowState) (i : Nat) : WinnowState :=
  let wh := (hashes.drop i).take window
  let m := minList wh
  let pos := i + indexOfFirst m wh
  if (pos : Int) ≠ s.minPos ∨ ¬ (some m = s.minHash) then
    ⟨insert m s.fps, some m, (pos : Int)⟩
  else s

def winnowLoop (hashes : List Nat) (window : Nat) : Finset Nat :=
  ((List.range (hashes.length - window + 1)).foldl (winnowStep hashes window)
    ⟨∅, none, -1⟩).fps

/-- `winnow_fingerprints` from `auto_paper/services/similarity.py`
(Python defaults are `k = 5`, `window = 4`; callers pass them explicitly here). -/
def winnow_fingerprints (text : String) (k window : Nat) : Finset Nat :=
  let toks := _tokens text
  if toks.length < k then ∅
  else
    let hashes := shingleHashes toks k
    if hashes.length ≤ window then hashes.toFinset
    else winnowLoop hashes window

/-- `jaccard` from `auto_paper/services/similarity.py`; the `float` result is
modelled as an exact rational. -/
def jaccard (a b : Finset Nat) : ℚ :=
  if a = ∅ ∧ b = ∅ then 0
  else
    if (a ∪ b).card ≠ 0 then ((a ∩ b).card : ℚ) / ((a ∪ b).card : ℚ) else 0

/-- `SimilarityResult` from `auto_paper/services/similarity.py`. -/
structure SimilarityResult where
  name_a : String
  name_b : String
  score : ℚ
deriving DecidableEq

/-- `similarity_score` from `auto_paper/services/similarity.py`. -/
def similarity_score (ta tb : String) (k window : Nat) : ℚ :=
  jaccard (winnow_fingerprints ta k window) (winnow_fingerprints tb k window)

/-- The skip test `not t or not t.strip()` used in `similarity_report`. -/
def skipText (t : String) : Bool := t == "" || pyStrip t == ""

/-- Stable insertion (descending by score) modelling Python's stable
`list.sort(key=score, reverse=True)`. -/
def insertDesc (p : SimilarityResult) : List SimilarityResult → List SimilarityResult
  | [] => [p]
  | x :: xs => if x.score ≤ p.score then p :: x :: xs else x :: insertDesc p xs

def sortByScoreDesc (l : List SimilarityResult) : List SimilarityResult :=
  l.foldr insertDesc []

/-- `similarity_report` from `auto_paper/services/similarity.py`; the nested
append loop is written as a join of per-generated-text rows. -/
def similarity_report (generated sources : List (String × String)) (threshold : ℚ) :
    List SimilarityResult :=
  sortByScoreDesc
    (((generated.filter (fun p => !skipText p.2)).map (fun p =>
      (sources.filter (fun q => !skipText q.2)).filterMap (fun q =>
        let score := similarity_score p.2 q.2 5 4
        if threshold ≤ score then some (SimilarityResult.mk p.1 q.1 score) else none))).flatten)

/-- Left and right brace characters (written via codepoints). -/
def lbrace : Char := Char.ofNat 123

def rbrace : Char := Char.ofNat 125

/-- Python `", ".join`-style join. -/
def joinSep (sep : String) : List String → String
  | [] => ""
  | [p] => p
  | p :: ps => p ++ sep ++ joinSep sep ps

/-- `_format_authors` from `auto_paper/services/vancouver.py`. -/
def _format_authors (authors : List String) : String :=
  if authors = [] then ""
  else if authors.length ≤ 6 then joinSep ", " authors ++ "."
  else joinSep ", " (authors.take 6) ++ ", et al."

/-- Python `str.rstrip(".")` on a character list. -/
def rstripDotsL (l : List Char) : List Char :=
  (l.reverse.dropWhile (fun c => c == '.')).reverse

def pyRstripDots (s : String) : String := String.mk (rstripDotsL s.data)

/-- Truthiness of an `Optional[str]` field (`None` and `""` are falsy). -/
def optTruthy : Option String → Bool
  | none => false
  | some s => !(s == "")

def optStr : Option String → String
  | none => ""
  | some s => s

/-- Python `str(c.year) if c.year else ""` (`0` is falsy). -/
def yearStr : Option Int → String
  | none => ""
  | some y => if y = 0 then "" else toString y

/-- State machine for `re.sub(r"\s{2,}", " ", ref)`: a maximal whitespace run
of length 1 is kept verbatim, a longer run becomes a single space. -/
inductive WSState where
  | normal
  | pending (w : Char)
  | skipping
deriving DecidableEq

def collapseWSAux : WSState → List Char → List Char
  | WSState.normal, [] => []
  | WSState.pending w, [] => [w]
  | WSState.skipping, [] => []
  | WSState.normal, c :: cs =>
    if isPyWS c then collapseWSAux (WSState.pending c) cs
    else c :: collapseWSAux WSState.normal cs
  | WSState.pending w, c :: cs =>
    if isPyWS c then ' ' :: collapseWSAux WSState.skipping cs
    else w :: c :: collapseWSAux WSState.normal cs
  | WSState.skipping, c :: cs =>
    if isPyWS c then collapseWSAux WSState.skipping cs
    else c :: collapseWSAux WSState.normal cs

def collapseWS (l : List Char) : List Char := collapseWSAux WSState.normal l

/-- `format_vancouver_reference` from `auto_paper/services/vancouver.py`. -/
def format_vancouver_reference (c : Citation) : String :=
  let a := _format_authors c.authors
  let title := pyRstripDots c.title
  let journal := if optTruthy c.journal_iso_abbrev then optStr c.journal_iso_abbrev
                 else optStr c.journal
  let year := yearStr c.year
  let vol := optStr c.volume
  let issue := optStr c.issue
  let pages := optStr c.pages
  let doi := optStr c.doi
  let parts : List String :=
    (if a = "" then [] else [a])
    ++ (if title = "" then [] else [title ++ "."])
    ++ (if journal = "" then [] else [journal ++ "."])
    ++ (if year = "" then []
        else
          let vol_issue := if issue = "" then vol
                           else if vol = "" then "(" ++ issue ++ ")"
                           else vol ++ "(" ++ issue ++ ")"
          if pages = "" then [year ++ ";" ++ vol_issue ++ "."]
          else [year ++ ";" ++ vol_issue ++ ":" ++ pages ++ "."])
    ++ (if doi = "" then (if optTruthy c.url then [optStr c.url] else []) else ["doi:" ++ doi ++ "."])
  let ref := joinSep " " (parts.filter (fun p => !(pyStrip p == "")))
  pyStrip (String.mk (collapseWS ref.data))

/-- `_key` from `auto_paper/services/vancouver.py`. -/
def _key (kind ident : String) : String := kind ++ ":" ++ pyStrip ident

/-- First-match association-list lookup; Python dicts built by the core never
hold a duplicate key, so this models `dict.__getitem__` / `dict.get`. -/
def dictGet {κ α : Type} [DecidableEq κ] (k : κ) : List (κ × α) → Option α
  | [] => none
  | p :: d => if p.1 = k then some p.2 else dictGet k d

/-- Python dict assignment `d[k] = v`: overwrite in place or append. -/
def dictInsert {κ α : Type} [DecidableEq κ] (d : List (κ × α)) (k : κ) (v : α) :
    List (κ × α) :=
  if k ∈ d.map Prod.fst then d.map (fun p => if p.1 = k then (k, v) else p)
  else d ++ [(k, v)]

def dictFromPairs {κ α : Type} [DecidableEq κ] (l : List (κ × α)) : List (κ × α) :=
  l.foldl (fun d p => dictInsert d p.1 p.2) []

/-- The literal pieces of `CITE_PATTERN = re.compile(r"\{cite:(PMID|DOI):([^}]+)\}")`. -/
def citeTag : List Char := [lbrace, 'c', 'i', 't', 'e', ':']

def pmidTag : List Char := ['P', 'M', 'I', 'D', ':']

def doiTag : List Char := ['D', 'O', 'I', ':']

/-- Match a literal character-list at the head, returning the remainder. -/
def dropPrefixChars : List Char → List Char → Option (List Char)
  | [], cs => some cs
  | _ :: _, [] => none
  | p :: ps, c :: cs => if p = c then dropPrefixChars ps cs else none

/-- Consume `[^}]*` followed by `}`, returning the consumed run and the rest. -/
def takeTillBrace : List Char → Option (List Char × List Char)
  | [] => none
  | c :: cs =>
    if c = rbrace then some ([], cs)
    else
      match takeTillBrace cs with
      | some pr => some (c :: pr.1, pr.2)
      | none => none

/-- Attempt to match `CITE_PATTERN` at the start of the input: literal
`{cite:`, then `PMID:` or `DOI:`, then a non-empty run of non-`}` characters,
then `}`.  Returns kind, identifier and the remaining input. -/
def tryMatchCite (cs : List Char) : Option (String × String × List Char) :=
  match dropPrefixChars citeTag cs with
  | none => none
  | some r1 =>
    match dropPrefixChars pmidTag r1 with
    | some r2 =>
      match takeTillBrace r2 with
      | some pr => if pr.1 = [] then none else some ("PMID", String.mk pr.1, pr.2)
      | none => none
    | none =>
      match dropPrefixChars doiTag r1 with
      | some r2 =>
        match takeTillBrace r2 with
        | some pr => if pr.1 = [] then none else some ("DOI", String.mk pr.1, pr.2)
        | none => none
      | none => none

/-- A scanned text: literal characters and matched placeholders. -/
inductive CiteItem where
  | chr : Char → CiteItem
  | cite : String → String → CiteItem
deriving DecidableEq

/-- Fuelled scanner for `CITE_PATTERN.sub`: at each position, replace the
leftmost match or emit one literal character.  Fuel `≥` input length never
runs out (the matched remainder is strictly shorter). -/
def scanTextF : Nat → List Char → List CiteItem
  | 0, _ => []
  | _ + 1, [] => []
  | f + 1, c :: cs =>
    match tryMatchCite (c :: cs) with
    | some t => CiteItem.cite t.1 t.2.1 :: scanTextF f t.2.2
    | none => CiteItem.chr c :: scanTextF f cs

def scanText (cs : List Char) : List CiteItem := scanTextF cs.length cs

/-- The in-text marker: `[n]` for bracket style, `(n)` otherwise. -/
def fmtNum (fmt : String) (n : Nat) : List Char :=
  if fmt = "bracket" then '[' :: (toString n).data ++ [']']
  else '(' :: (toString n).data ++ [')']

/-- The replacement loop of `re_number_citations`: keys are assigned the next
number on first appearance, every occurrence is rewritten with its number. -/
def renumberItems (fmt : String) :
    List CiteItem → List (String × Nat) → Nat → List Char × List (String × Nat) × Nat
  | [], m, n => ([], m, n)
  | CiteItem.chr c :: items, m, n =>
    let r := renumberItems fmt items m n
    (c :: r.1, r.2)
  | CiteItem.cite kind ident :: items, m, n =>
    let k := _key kind ident
    match dictGet k m with
    | some v =>
      let r := renumberItems fmt items m n
      (fmtNum fmt v ++ r.1, r.2)
    | none =>
      let r := renumberItems fmt items (m ++ [(k, n)]) (n + 1)
      (fmtNum fmt n ++ r.1, r.2)

/-- `re_number_citations` from `auto_paper/services/vancouver.py`. -/
def re_number_citations (text : String) (m : List (String × Nat)) (n : Nat)
    (fmt : String) : String × List (String × Nat) × Nat :=
  let r := renumberItems fmt (scanText text.data) m n
  (String.mk r.1, r.2)

def baseSectionOrder : List String :=
  ["Introduction", "Methods", "Results", "Discussion", "Conclusion"]

/-- The section order built in `number_drafts_and_build_references`. -/
def sectionOrderList (incl : Bool) (drafts : String → Option String) : List String :=
  if incl && (drafts "Abstract").isSome then "Abstract" :: baseSectionOrder
  else baseSectionOrder

/-- The processed `(section, stripped text)` list: absent, empty and
whitespace-only sections are skipped, the rest stripped. -/
def processedTexts (incl : Bool) (drafts : String → Option String) :
    List (String × String) :=
  (sectionOrderList incl drafts).filterMap (fun sec =>
    match drafts sec with
    | none => none
    | some t => if t == "" || pyStrip t == "" then none else some (sec, pyStrip t))

/-- The per-section renumbering loop of `number_drafts_and_build_references`. -/
def numberSections (fmt : String) :
    List (String × String) → List (String × Nat) → Nat →
      List (String × String) × List (String × Nat) × Nat
  | [], m, n => ([], m, n)
  | st :: rest, m, n =>
    let r1 := re_number_citations st.2 m n fmt
    let r2 := numberSections fmt rest r1.2.1 r1.2.2
    ((st.1, r1.1) :: r2.1, r2.2)

/-- The `key_to_citation` dict of `number_drafts_and_build_references`. -/
def keyToCitation (plan : CitationPlan) : List (String × Citation) :=
  plan.selected.foldl (fun d cu =>
    let c := cu.citation
    let d := if optTruthy c.pmid then dictInsert d (_key "PMID" (optStr c.pmid)) c else d
    if optTruthy c.doi then dictInsert d (_key "DOI" (optStr c.doi)) c else d) []

/-- One reference-list line: a formatted record, or the missing-metadata flag. -/
def refLine (plan : CitationPlan) (num : Nat) (key : String) : String :=
  match dictGet key (keyToCitation plan) with
  | some c => toString num ++ ". " ++ format_vancouver_reference c
  | none => toString num ++ ". " ++ key ++ " (Missing metadata; please fix in CitationPlan)."

/-- Ascending insertion sort on the first component, modelling Python
`sorted(num_to_key.keys())` (keys are distinct, so stability is irrelevant). -/
def insertPairAsc (p : Nat × String) : List (Nat × String) → List (Nat × String)
  | [] => [p]
  | q :: l => if p.1 ≤ q.1 then p :: q :: l else q :: insertPairAsc p l

def sortPairsAsc (l : List (Nat × String)) : List (Nat × String) :=
  l.foldr insertPairAsc []

/-- `number_drafts_and_build_references` from `auto_paper/services/vancouver.py`.
Iterating `sorted(num_to_key.keys())` with `num_to_key[num]` is written as a
map over the dict's pairs sorted by number (dict keys are unique). -/
def number_drafts_and_build_references (journal : JournalSpec)
    (drafts : String → Option String) (plan : CitationPlan) (incl : Bool) :
    List (String × String) × List String :=
  let pts := processedTexts incl drafts
  let r := numberSections journal.references.in_text_format pts [] 1
  let num_to_key := dictFromPairs (r.2.1.map (fun p => (p.2, p.1)))
  let refs := (sortPairsAsc num_to_key).map (fun p => refLine plan p.1 p.2)
  (r.1, refs)

/-! Specification-side definitions used to state the invariants. -/

/-- The keys (kind + stripped identifier) of the placeholders in a scanned text. -/
def citeKeysOfItems : List CiteItem → List String
  | [] => []
  | CiteItem.chr _ :: items => citeKeysOfItems items
  | CiteItem.cite kind ident :: items => _key kind ident :: citeKeysOfItems items

def citeKeysOfText (t : String) : List String := citeKeysOfItems (scanText t.data)

def sectionCiteKeys (pts : List (String × String)) : List String :=
  ((pts.map (fun p => citeKeysOfText p.2)).flatten)

/-- First occurrences, in order, of keys not in `seen`. -/
def firstOccsAux : List String → List String → List String
  | _, [] => []
  | seen, k :: ks =>
    if k ∈ seen then firstOccsAux seen ks else k :: firstOccsAux (k :: seen) ks

def firstOccs (ks : List String) : List String := firstOccsAux [] ks

/-- Fold the key stream through the assign-on-first-appearance map update. -/
def extendMap : List (String × Nat) → Nat → List String → List (String × Nat) × Nat
  | m, n, [] => (m, n)
  | m, n, k :: ks =>
    if (dictGet k m).isSome then extendMap m n ks
    else extendMap (m ++ [(k, n)]) (n + 1) ks

/-- Rewrite a scanned text using one fixed key-to-number map. -/
def renderItems (fmt : String) (m : List (String × Nat)) : List CiteItem → List Char
  | [] => []
  | CiteItem.chr c :: items => c :: renderItems fmt m items
  | CiteItem.cite kind ident :: items =>
    fmtNum fmt ((dictGet (_key kind ident) m).getD 0) ++ renderItems fmt m items

/-- The numbering map the invariant predicts: distinct keys in first-appearance
order, paired with `1..N`. -/
def specMap (ks : List String) : List (String × Nat) :=
  (firstOccs ks).zip (List.range' 1 (firstOccs ks).length)

/-- A record carrying only a title (every optional field absent). -/
def titleOnly (t : String) : Citation :=
  ⟨none, none, t, [], none, none, none, none, none, none, [], none, none⟩

/-- No two adjacent whitespace characters (so `\s{2,}` cannot match). -/
def noTwoWS : List Char → Bool
  | a :: b :: l => (!(isPyWS a && isPyWS b)) && noTwoWS (b :: l)
  | _ => true

/-! Lemmas about the placeholder scanner. -/

theorem dropPrefixChars_iff (p : List Char) :
    ∀ cs r, dropPrefixChars p cs = some r ↔ cs = p ++ r := by
  induction p with
  | nil => intro cs r; simp [dropPrefixChars, eq_comm]
  | cons a ps ih =>
    intro cs r
    cases cs with
    | nil => simp [dropPrefixChars]
    | cons c cs' =>
      by_cases h : a = c
      · subst h
        simp [dropPrefixChars, ih]
      · simp [dropPrefixChars, h]
        intro h'
        exact absurd h'.symm h

theorem dropPrefixChars_self (p r : List Char) :
    dropPrefixChars p (p ++ r) = some r := by
  rw [dropPrefixChars_iff]

theorem takeTillBrace_eq (cs : List Char) :
    ∀ pr, takeTillBrace cs = some pr → cs = pr.1 ++ rbrace :: pr.2 := by
  induction cs with
  | nil => intro pr h; simp [takeTillBrace] at h
  | cons c cs' ih =>
    intro pr h
    by_cases hc : c = rbrace
    · subst hc
      simp [takeTillBrace] at h
      subst h
      simp
    · simp only [takeTillBrace, if_neg hc] at h
      cases htb : takeTillBrace cs' with
      | none => rw [htb] at h; simp at h
      | some pr' =>
        rw [htb] at h
        simp at h
        have hi := ih pr' htb
        subst h
        simp [hi]

theorem takeTillBrace_none_of_no_brace (cs : List Char) (h : rbrace ∉ cs) :
    takeTillBrace cs = none := by
  induction cs with
  | nil => rfl
  | cons c cs' ih =>
    simp at h
    simp [takeTillBrace, fun hc : c = rbrace => h.1 hc.symm, ih h.2]
    intro hc
    exact absurd hc.symm h.1

theorem tryMatchCite_len (cs : List Char) :
    ∀ t, tryMatchCite cs = some t → t.2.2.length < cs.length := by
  intro t h
  unfold tryMatchCite at h
  split at h
  · simp at h
  next r1 h1 =>
    rw [dropPrefixChars_iff] at h1
    split at h
    next r2 h2 =>
      rw [dropPrefixChars_iff] at h2
      split at h
      next pr h3 =>
        have h4 := takeTillBrace_eq r2 pr h3
        split at h
        · simp at h
        · cases h
          subst h1; subst h2
          simp [h4, citeTag, pmidTag]
          omega
      next h3 => simp at h
    next h2 =>
      split at h
      next r2 h2' =>
        rw [dropPrefixChars_iff] at h2'
        split at h
        next pr h3 =>
          have h4 := takeTillBrace_eq r2 pr h3
          split at h
          · simp at h
          · cases h
            subst h1; subst h2'
            simp [h4, citeTag, doiTag]
            omega
        next h3 => simp at h
      next h2' => simp at h

theorem scanTextF_congr :
    ∀ (f₁ : Nat), ∀ (cs : List Char) (f₂ : Nat), cs.length ≤ f₁ → cs.length ≤ f₂ →
      scanTextF f₁ cs = scanTextF f₂ cs := by
  intro f₁
  induction f₁ with
  | zero =>
    intro cs f₂ h1 _
    have : cs = [] := by
      cases cs with
      | nil => rfl
      | cons a l => simp at h1
    subst this
    cases f₂ <;> rfl
  | succ f ih =>
    intro cs f₂ h1 h2
    cases cs with
    | nil => cases f₂ <;> rfl
    | cons c cs' =>
      cases f₂ with
      | zero => simp at h2
      | succ f₂' =>
        simp only [scanTextF]
        cases hm : tryMatchCite (c :: cs') with
        | none =>
          simp at h1 h2
          rw [ih cs' f₂' h1 h2]
        | some t =>
          have hlen := tryMatchCite_len _ _ hm
          simp at h1 h2 hlen
          have he := ih t.2.2 f₂' (by omega) (by omega)
          simp [he]

theorem scanText_cons (c : Char) (cs : List Char) :
    scanText (c :: cs) =
      match tryMatchCite (c :: cs) with
      | some t => CiteItem.cite t.1 t.2.1 :: scanText t.2.2
      | none => CiteItem.chr c :: scanText cs := by
  show scanTextF (cs.length + 1) (c :: cs) = _
  simp only [scanTextF]
  cases hm : tryMatchCite (c :: cs) with
  | none => rfl
  | some t =>
    have hlen := tryMatchCite_len _ _ hm
    simp at hlen
    exact congrArg _ (scanTextF_congr cs.length t.2.2 t.2.2.length (by omega) (by omega))

theorem tryMatchCite_not_lbrace (c : Char) (cs : List Char) (h : ¬ c = lbrace) :
    tryMatchCite (c :: cs) = none := by
  have h' : ¬ lbrace = c := fun e => h e.symm
  simp [tryMatchCite, citeTag, dropPrefixChars, h']

theorem tryMatchCite_no_brace (cs : List Char) (h : rbrace ∉ cs) :
    tryMatchCite cs = none := by
  unfold tryMatchCite
  split
  · rfl
  next r1 h1 =>
    rw [dropPrefixChars_iff] at h1
    have hr1 : rbrace ∉ r1 := fun hm => h (by simp [h1, hm])
    split
    next r2 h2 =>
      rw [dropPrefixChars_iff] at h2
      have hr2 : rbrace ∉ r2 := fun hm => hr1 (by simp [h2, hm])
      rw [takeTillBrace_none_of_no_brace r2 hr2]
    next h2 =>
      split
      next r2 h2' =>
        rw [dropPrefixChars_iff] at h2'
        have hr2 : rbrace ∉ r2 := fun hm => hr1 (by simp [h2', hm])
        rw [takeTillBrace_none_of_no_brace r2 hr2]
      next => rfl

theorem scanText_append_nolb :
    ∀ (a b : List Char), lbrace ∉ a → scanText (a ++ b) = a.map CiteItem.chr ++ scanText b := by
  intro a
  induction a with
  | nil => intro b _; simp
  | cons c a' ih =>
    intro b h
    simp at h
    have hm : tryMatchCite (c :: (a' ++ b)) = none :=
      tryMatchCite_not_lbrace c _ (fun e => h.1 e.symm)
    show scanText (c :: (a' ++ b)) = _
    rw [scanText_cons, hm]
    simp [ih b h.2]

theorem scanText_no_brace (cs : List Char) (h : rbrace ∉ cs) :
    scanText cs = cs.map CiteItem.chr := by
  induction cs with
  | nil => rfl
  | cons c cs' ih =>
    simp at h
    have hm : tryMatchCite (c :: cs') = none := tryMatchCite_no_brace _ (by simp [h])
    rw [scanText_cons, hm]
    simp [ih h.2]

theorem renumberItems_chr_append (fmt : String) :
    ∀ (a : List Char) (items : List CiteItem) (m : List (String × Nat)) (n : Nat),
      renumberItems fmt (a.map CiteItem.chr ++ items) m n
        = ((a ++ (renumberItems fmt items m n).1, (renumberItems fmt items m n).2)) := by
  intro a
  induction a with
  | nil => intro items m n; simp
  | cons c a' ih =>
    intro items m n
    simp [renumberItems, ih]

theorem dropPrefixChars_sep_none :
    ∀ (u : List Char) (c : Char) (kd z : List Char), c ∉ u → c ∉ kd → kd ≠ u →
      dropPrefixChars (u ++ [c]) (kd ++ c :: z) = none := by
  intro u
  induction u with
  | nil =>
    intro c kd z hcu hckd hne
    cases kd with
    | nil => exact absurd rfl hne
    | cons d kd' =>
      have hcd : ¬ c = d := fun e => hckd (by simp [e])
      simp [dropPrefixChars, hcd]
  | cons a u' ih =>
    intro c kd z hcu hckd hne
    simp at hcu
    cases kd with
    | nil =>
      have hac : ¬ a = c := fun e => hcu.1 e.symm
      simp [dropPrefixChars, hac]
    | cons d kd' =>
      simp at hckd
      by_cases had : a = d
      · subst had
        show dropPrefixChars (a :: (u' ++ [c])) (a :: (kd' ++ c :: z)) = none
        simp only [dropPrefixChars, if_pos rfl]
        exact ih c kd' z hcu.2 hckd.2 (fun e => hne (by rw [e]))
      · show dropPrefixChars (a :: (u' ++ [c])) (d :: (kd' ++ c :: z)) = none
        simp [dropPrefixChars, had]

theorem tryMatchCite_malformed (kd ident post : List Char)
    (h1 : ':' ∉ kd) (h3 : kd ≠ "PMID".data) (h4 : kd ≠ "DOI".data) :
    tryMatchCite (citeTag ++ (kd ++ ':' :: (ident ++ rbrace :: post))) = none := by
  have hP : "PMID".data = ['P', 'M', 'I', 'D'] := by decide
  have hD : "DOI".data = ['D', 'O', 'I'] := by decide
  have hp : dropPrefixChars pmidTag (kd ++ ':' :: (ident ++ rbrace :: post)) = none := by
    have := dropPrefixChars_sep_none ['P', 'M', 'I', 'D'] ':' kd (ident ++ rbrace :: post)
      (by decide) h1 (by rw [← hP]; exact h3)
    exact this
  have hd : dropPrefixChars doiTag (kd ++ ':' :: (ident ++ rbrace :: post)) = none := by
    have := dropPrefixChars_sep_none ['D', 'O', 'I'] ':' kd (ident ++ rbrace :: post)
      (by decide) h1 (by rw [← hD]; exact h4)
    exact this
  unfold tryMatchCite
  rw [dropPrefixChars_self]
  simp [hp, hd]

theorem scanText_malformed (pre kd ident post : List Char)
    (hpre : lbrace ∉ pre) (hkd1 : lbrace ∉ kd) (hkd2 : ':' ∉ kd)
    (hkd3 : kd ≠ "PMID".data) (hkd4 : kd ≠ "DOI".data) (hid1 : lbrace ∉ ident) :
    scanText (pre ++ (citeTag ++ (kd ++ ':' :: (ident ++ rbrace :: post))))
      = (pre ++ (citeTag ++ (kd ++ ':' :: (ident ++ [rbrace])))).map CiteItem.chr
          ++ scanText post := by
  rw [scanText_append_nolb pre _ hpre]
  have hm := tryMatchCite_malformed kd ident post hkd2 hkd3 hkd4
  rw [show citeTag ++ (kd ++ ':' :: (ident ++ rbrace :: post))
        = lbrace :: (['c', 'i', 't', 'e', ':'] ++ (kd ++ ':' :: (ident ++ rbrace :: post)))
      from rfl] at hm ⊢
  rw [scanText_cons, hm]
  have hy : lbrace ∉ (['c', 'i', 't', 'e', ':'] ++ (kd ++ ':' :: (ident ++ [rbrace]))) := by
    intro hmem
    rcases List.mem_append.1 hmem with h | h
    · exact absurd h (by decide)
    · rcases List.mem_append.1 h with h' | h'
      · exact hkd1 h'
      · rcases List.mem_cons.1 h' with h'' | h''
        · exact absurd h'' (by decide)
        · rcases List.mem_append.1 h'' with h3 | h3
          · exact hid1 h3
          · exact absurd h3 (by decide)
  have hre : ['c', 'i', 't', 'e', ':'] ++ (kd ++ ':' :: (ident ++ rbrace :: post))
      = (['c', 'i', 't', 'e', ':'] ++ (kd ++ ':' :: (ident ++ [rbrace]))) ++ post := by
    simp
  rw [hre, scanText_append_nolb _ _ hy]
  simp [citeTag]

/-- C9: a malformed placeholder — unrecognised kind token, or a tag with no
closing brace — is not matched by `CITE_PATTERN`, is left verbatim in the
renumbered output, and consumes no number (map and counter pass through). -/
theorem c9_malformed_placeholders :
    (∀ (pre kd ident post : List Char) (m : List (String × Nat)) (n : Nat) (fmt : String),
      lbrace ∉ pre → lbrace ∉ kd → ':' ∉ kd → kd ≠ "PMID".data → kd ≠ "DOI".data →
      lbrace ∉ ident →
      re_number_citations
          (String.mk (pre ++ (citeTag ++ (kd ++ ':' :: (ident ++ rbrace :: post))))) m n fmt
        = (String.mk (pre ++ (citeTag ++ (kd ++ ':' :: (ident ++ rbrace ::
              (re_number_citations (String.mk post) m n fmt).1.data)))),
           (re_number_citations (String.mk post) m n fmt).2))
    ∧ (∀ (text : List Char) (m : List (String × Nat)) (n : Nat) (fmt : String),
        rbrace ∉ text →
        re_number_citations (String.mk text) m n fmt = (String.mk text, m, n)) := by
  constructor
  · intro pre kd ident post m n fmt hpre hkd1 hkd2 hkd3 hkd4 hid1
    show (let r := renumberItems fmt (scanText (pre ++ (citeTag ++ (kd ++ ':' ::
        (ident ++ rbrace :: post))))) m n; (String.mk r.1, r.2)) = _
    rw [scanText_malformed pre kd ident post hpre hkd1 hkd2 hkd3 hkd4 hid1]
    rw [renumberItems_chr_append]
    show (String.mk _, _) = _
    have hpost : scanText post = scanText (String.mk post).data := rfl
    rw [hpost]
    simp [re_number_citations]
  · intro text m n fmt h
    show (let r := renumberItems fmt (scanText (String.mk text).data) m n;
        (String.mk r.1, r.2)) = _
    have : scanText (String.mk text).data = text.map CiteItem.chr := scanText_no_brace text h
    rw [this]
    have := renumberItems_chr_append fmt text [] m n
    simp [renumberItems] at this
    simp [this]

/-- Witness for C9: `x{cite:ISBN:9}y` passes through untouched around an
empty tail renumbering, and the unterminated `{cite:PMID:12` is the identity. -/
theorem c9_malformed_placeholders_witness :
    re_number_citations
        (String.mk ("x".data ++ (citeTag ++ ("ISBN".data ++ ':' ::
          ("9".data ++ rbrace :: "y".data))))) [] 1 "bracket"
      = (String.mk ("x".data ++ (citeTag ++ ("ISBN".data ++ ':' :: ("9".data ++ rbrace ::
            (re_number_citations (String.mk "y".data) [] 1 "bracket").1.data)))),
         (re_number_citations (String.mk "y".data) [] 1 "bracket").2)
    ∧ re_number_citations (String.mk "\x7bcite:PMID:12".data) [] 1 "bracket"
        = (String.mk "\x7bcite:PMID:12".data, [], 1) := by
  constructor
  · exact c9_malformed_placeholders.1 "x".data "ISBN".data "9".data "y".data [] 1 "bracket"
      (by decide) (by decide) (by decide) (by decide) (by decide) (by decide)
  · exact c9_malformed_placeholders.2 "\x7bcite:PMID:12".data [] 1 "bracket" (by decide)

/-! Lemmas about the numbering map. -/

theorem dictGet_append {κ α : Type} [DecidableEq κ] (k : κ) :
    ∀ (m m' : List (κ × α)), dictGet k (m ++ m') = (dictGet k m).or (dictGet k m') := by
  intro m
  induction m with
  | nil => intro m'; simp [dictGet]
  | cons p m ih =>
    intro m'
    by_cases h : p.1 = k
    · simp [dictGet, h]
    · simp [dictGet, h, ih]

theorem dictGet_isSome_iff {κ α : Type} [DecidableEq κ] (k : κ) :
    ∀ (m : List (κ × α)), (dictGet k m).isSome = true ↔ k ∈ m.map Prod.fst := by
  intro m
  induction m with
  | nil => simp [dictGet]
  | cons p m ih =>
    by_cases h : p.1 = k
    · simp [dictGet, h]
    · simp [dictGet, h, ih]
      exact fun e => absurd e.symm h

theorem extendMap_shape :
    ∀ (ks : List String) (m : List (String × Nat)) (n : Nat),
      ∃ ext, (extendMap m n ks).1 = m ++ ext := by
  intro ks
  induction ks with
  | nil => intro m n; exact ⟨[], by simp [extendMap]⟩
  | cons k ks ih =>
    intro m n
    by_cases h : (dictGet k m).isSome = true
    · simpa [extendMap, h] using ih m n
    · obtain ⟨ext, he⟩ := ih (m ++ [(k, n)]) (n + 1)
      refine ⟨(k, n) :: ext, ?_⟩
      simp [extendMap, h] at he ⊢
      simpa using he

theorem dictGet_extendMap_mono (k : String) (v : Nat)
    (ks : List String) (m : List (String × Nat)) (n : Nat)
    (h : dictGet k m = some v) : dictGet k (extendMap m n ks).1 = some v := by
  obtain ⟨ext, he⟩ := extendMap_shape ks m n
  rw [he, dictGet_append, h]
  rfl

theorem extendMap_keys_present :
    ∀ (ks : List String) (m : List (String × Nat)) (n : Nat) (k : String), k ∈ ks →
      (dictGet k (extendMap m n ks).1).isSome = true := by
  intro ks
  induction ks with
  | nil => intro m n k h; simp at h
  | cons k' ks ih =>
    intro m n k h
    rcases List.mem_cons.1 h with h | h
    · subst h
      by_cases hs : (dictGet k m).isSome = true
      · rw [extendMap, if_pos hs]
        obtain ⟨v, hv⟩ := Option.isSome_iff_exists.1 hs
        rw [dictGet_extendMap_mono k v ks m n hv]
        rfl
      · rw [extendMap, if_neg hs]
        have hv : dictGet k (m ++ [(k, n)]) = some n := by
          rw [dictGet_append]
          cases hd : dictGet k m with
          | some v => rw [hd] at hs; simp at hs
          | none => simp [dictGet]
        rw [dictGet_extendMap_mono k n ks _ (n + 1) hv]
        rfl
    · by_cases hs : (dictGet k' m).isSome = true
      · rw [extendMap, if_pos hs]; exact ih m n k h
      · rw [extendMap, if_neg hs]; exact ih _ (n + 1) k h

theorem renumberItems_snd (fmt : String) :
    ∀ (items : List CiteItem) (m : List (String × Nat)) (n : Nat),
      (renumberItems fmt items m n).2 = extendMap m n (citeKeysOfItems items) := by
  intro items
  induction items with
  | nil => intro m n; rfl
  | cons it items ih =>
    intro m n
    cases it with
    | chr c => simp [renumberItems, citeKeysOfItems, ih]
    | cite kind ident =>
      cases hd : dictGet (_key kind ident) m with
      | some v =>
        have hs : (dictGet (_key kind ident) m).isSome = true := by simp [hd]
        simp [renumberItems, hd, citeKeysOfItems, extendMap, hs, ih]
      | none =>
        have hs : ¬ (dictGet (_key kind ident) m).isSome = true := by simp [hd]
        simp [renumberItems, hd, citeKeysOfItems, extendMap, hs, ih]

theorem renderItems_congr (fmt : String) :
    ∀ (items : List CiteItem) (m₁ m₂ : List (String × Nat)),
      (∀ k, k ∈ citeKeysOfItems items → dictGet k m₁ = dictGet k m₂) →
      renderItems fmt m₁ items = renderItems fmt m₂ items := by
  intro items
  induction items with
  | nil => intro m₁ m₂ _; rfl
  | cons it items ih =>
    intro m₁ m₂ h
    cases it with
    | chr c =>
      simp only [renderItems]
      rw [ih m₁ m₂ (fun k hk => h k hk)]
    | cite kind ident =>
      simp only [renderItems]
      rw [h (_key kind ident) (by simp [citeKeysOfItems]),
        ih m₁ m₂ (fun k hk => h k (by simp [citeKeysOfItems, hk]))]

theorem renumberItems_eq (fmt : String) :
    ∀ (items : List CiteItem) (m : List (String × Nat)) (n : Nat),
      renumberItems fmt items m n
        = (renderItems fmt (extendMap m n (citeKeysOfItems items)).1 items,
           extendMap m n (citeKeysOfItems items)) := by
  intro items
  induction items with
  | nil => intro m n; rfl
  | cons it items ih =>
    intro m n
    cases it with
    | chr c =>
      simp only [renumberItems, citeKeysOfItems, renderItems]
      rw [ih m n]
    | cite kind ident =>
      cases hd : dictGet (_key kind ident) m with
      | some v =>
        have hs : (dictGet (_key kind ident) m).isSome = true := by simp [hd]
        simp only [renumberItems, hd, citeKeysOfItems, renderItems, extendMap, if_pos hs]
        rw [ih m n]
        have hfin : dictGet (_key kind ident)
            (extendMap m n (citeKeysOfItems items)).1 = some v :=
          dictGet_extendMap_mono _ _ _ _ _ hd
        simp [hfin]
      | none =>
        have hs : ¬ (dictGet (_key kind ident) m).isSome = true := by simp [hd]
        simp only [renumberItems, hd, citeKeysOfItems, renderItems, extendMap, if_neg hs]
        rw [ih (m ++ [(_key kind ident, n)]) (n + 1)]
        have hv : dictGet (_key kind ident) (m ++ [(_key kind ident, n)]) = some n := by
          rw [dictGet_append, hd]
          simp [dictGet]
        have hfin : dictGet (_key kind ident)
            (extendMap (m ++ [(_key kind ident, n)]) (n + 1) (citeKeysOfItems items)).1
              = some n :=
          dictGet_extendMap_mono _ _ _ _ _ hv
        simp [hfin]

theorem extendMap_append :
    ∀ (ks₁ ks₂ : List String) (m : List (String × Nat)) (n : Nat),
      extendMap m n (ks₁ ++ ks₂)
        = extendMap (extendMap m n ks₁).1 (extendMap m n ks₁).2 ks₂ := by
  intro ks₁
  induction ks₁ with
  | nil => intro ks₂ m n; rfl
  | cons k ks ih =>
    intro ks₂ m n
    by_cases h : (dictGet k m).isSome = true
    · simp [extendMap, h, ih]
    · simp [extendMap, h, ih]

theorem sectionCiteKeys_cons (st : String × String) (rest : List (String × String)) :
    sectionCiteKeys (st :: rest) = citeKeysOfText st.2 ++ sectionCiteKeys rest := by
  simp [sectionCiteKeys]

theorem numberSections_eq (fmt : String) :
    ∀ (pts : List (String × String)) (m : List (String × Nat)) (n : Nat),
      numberSections fmt pts m n
        = (pts.map (fun p => (p.1,
             String.mk (renderItems fmt (extendMap m n (sectionCiteKeys pts)).1
               (scanText p.2.data)))),
           extendMap m n (sectionCiteKeys pts)) := by
  intro pts
  induction pts with
  | nil => intro m n; rfl
  | cons st rest ih =>
    intro m n
    have hkeys : sectionCiteKeys (st :: rest) = citeKeysOfText st.2 ++ sectionCiteKeys rest :=
      sectionCiteKeys_cons st rest
    have h1 : re_number_citations st.2 m n fmt
        = (String.mk (renderItems fmt (extendMap m n (citeKeysOfText st.2)).1
            (scanText st.2.data)),
           extendMap m n (citeKeysOfText st.2)) := by
      show (let r := renumberItems fmt (scanText st.2.data) m n; (String.mk r.1, r.2)) = _
      rw [renumberItems_eq]
      rfl
    simp only [numberSections, h1, hkeys, extendMap_append]
    rw [ih (extendMap m n (citeKeysOfText st.2)).1 (extendMap m n (citeKeysOfText st.2)).2]
    have hcongr : renderItems fmt (extendMap m n (citeKeysOfText st.2)).1 (scanText st.2.data)
        = renderItems fmt (extendMap (extendMap m n (citeKeysOfText st.2)).1
            (extendMap m n (citeKeysOfText st.2)).2 (sectionCiteKeys rest)).1
            (scanText st.2.data) := by
      apply renderItems_congr
      intro k hk
      have hks : k ∈ citeKeysOfText st.2 := hk
      have hsome := extendMap_keys_present (citeKeysOfText st.2) m n k hks
      obtain ⟨v, hv⟩ := Option.isSome_iff_exists.1 hsome
      rw [hv, dictGet_extendMap_mono k v _ _ _ hv]
    simp only [List.map_cons]
    rw [← hcongr]

theorem firstOccsAux_congr :
    ∀ (ks : List String) (s₁ s₂ : List String), (∀ x, x ∈ s₁ ↔ x ∈ s₂) →
      firstOccsAux s₁ ks = firstOccsAux s₂ ks := by
  intro ks
  induction ks with
  | nil => intro s₁ s₂ _; rfl
  | cons k ks ih =>
    intro s₁ s₂ h
    by_cases hk : k ∈ s₁
    · simp [firstOccsAux, hk, (h k).1 hk, ih s₁ s₂ h]
    · have hk2 : k ∉ s₂ := fun hm => hk ((h k).2 hm)
      simp only [firstOccsAux, if_neg hk, if_neg hk2]
      rw [ih (k :: s₁) (k :: s₂) (by intro x; simp [h x])]

theorem extendMap_explicit :
    ∀ (ks : List String) (m : List (String × Nat)) (n : Nat),
      extendMap m n ks
        = (m ++ (firstOccsAux (m.map Prod.fst) ks).zip
              (List.range' n (firstOccsAux (m.map Prod.fst) ks).length),
           n + (firstOccsAux (m.map Prod.fst) ks).length) := by
  intro ks
  induction ks with
  | nil => intro m n; simp [extendMap, firstOccsAux]
  | cons k ks ih =>
    intro m n
    by_cases h : (dictGet k m).isSome = true
    · have hk : k ∈ m.map Prod.fst := (dictGet_isSome_iff k m).1 h
      simp only [extendMap, if_pos h, firstOccsAux, if_pos hk]
      exact ih m n
    · have hk : k ∉ m.map Prod.fst := fun hm => h ((dictGet_isSome_iff k m).2 hm)
      simp only [extendMap, if_neg h, firstOccsAux, if_neg hk]
      rw [ih (m ++ [(k, n)]) (n + 1)]
      have hmap : (m ++ [(k, n)]).map Prod.fst = m.map Prod.fst ++ [k] := by simp
      have hcg : firstOccsAux ((m ++ [(k, n)]).map Prod.fst) ks
          = firstOccsAux (k :: m.map Prod.fst) ks := by
        rw [hmap]
        exact firstOccsAux_congr ks _ _ (by intro x; simp; tauto)
      rw [hcg]
      simp only [List.length_cons, List.range'_succ, List.zip_cons_cons, Prod.mk.injEq]
      refine ⟨by simp, by omega⟩


theorem map_fst_zip_range' :
    ∀ (a : List String) (n : Nat), ((a.zip (List.range' n a.length)).map Prod.fst) = a := by
  intro a
  induction a with
  | nil => intro n; rfl
  | cons x a ih =>
    intro n
    simp only [List.length_cons, List.range'_succ, List.zip_cons_cons, List.map_cons, ih]

theorem map_snd_zip_range' :
    ∀ (a : List String) (n : Nat),
      ((a.zip (List.range' n a.length)).map Prod.snd) = List.range' n a.length := by
  intro a
  induction a with
  | nil => intro n; rfl
  | cons x a ih =>
    intro n
    simp only [List.length_cons, List.range'_succ, List.zip_cons_cons, List.map_cons, ih]

theorem extendMap_nil_one (ks : List String) :
    extendMap [] 1 ks = (specMap ks, 1 + (firstOccs ks).length) := by
  rw [extendMap_explicit]
  simp [specMap, firstOccs]

/-- C2: over every drafts map, citation plan and style, the renumbering pass
binds, in first-appearance order over the canonically ordered processed
sections, exactly the distinct placeholder identities to the dense numbers
`1..N`, and rewrites every section with that one final map. -/
theorem c2_dense_first_appearance_numbering :
    ∀ (journal : JournalSpec) (drafts : String → Option String) (plan : CitationPlan)
      (incl : Bool),
      numberSections journal.references.in_text_format (processedTexts incl drafts) [] 1
        = ((processedTexts incl drafts).map (fun p => (p.1,
             String.mk (renderItems journal.references.in_text_format
               (specMap (sectionCiteKeys (processedTexts incl drafts)))
               (scanText p.2.data)))),
           specMap (sectionCiteKeys (processedTexts incl drafts)),
           1 + (firstOccs (sectionCiteKeys (processedTexts incl drafts))).length)
      ∧ (specMap (sectionCiteKeys (processedTexts incl drafts))).map Prod.snd
          = List.range' 1 (firstOccs (sectionCiteKeys (processedTexts incl drafts))).length
      ∧ (number_drafts_and_build_references journal drafts plan incl).1
          = (numberSections journal.references.in_text_format
              (processedTexts incl drafts) [] 1).1 := by
  intro journal drafts plan incl
  refine ⟨?_, ?_, rfl⟩
  · rw [numberSections_eq, extendMap_nil_one]
  · simpa [specMap] using
      map_snd_zip_range' (firstOccs (sectionCiteKeys (processedTexts incl drafts))) 1

theorem zip_swap_pairs :
    ∀ (a : List String) (b : List Nat),
      ((a.zip b).map (fun p => (p.2, p.1))) = b.zip a := by
  intro a
  induction a with
  | nil => intro b; simp
  | cons x a ih =>
    intro b
    cases b with
    | nil => simp
    | cons v b => simp [ih]

theorem map_fst_zip_range'_nat :
    ∀ (b : List String) (n : Nat),
      (((List.range' n b.length).zip b).map Prod.fst) = List.range' n b.length := by
  intro b
  induction b with
  | nil => intro n; rfl
  | cons x b ih =>
    intro n
    simp only [List.length_cons, List.range'_succ, List.zip_cons_cons, List.map_cons, ih]

theorem foldl_dictInsert_nodup :
    ∀ (l d : List (Nat × String)), ((d ++ l).map Prod.fst).Nodup →
      l.foldl (fun d p => dictInsert d p.1 p.2) d = d ++ l := by
  intro l
  induction l with
  | nil => intro d _; simp
  | cons p l ih =>
    intro d h
    have hmem : p.1 ∉ d.map Prod.fst := by
      intro hm
      rw [List.map_append, List.nodup_append] at h
      exact h.2.2 hm (by simp)
    have hins : dictInsert d p.1 p.2 = d ++ [p] := by
      simp [dictInsert, hmem]
    show List.foldl (fun d p => dictInsert d p.1 p.2) (dictInsert d p.1 p.2) l = _
    rw [hins, ih (d ++ [p]) (by simpa using h)]
    simp

theorem dictFromPairs_nodup (l : List (Nat × String))
    (h : (l.map Prod.fst).Nodup) : dictFromPairs l = l := by
  have := foldl_dictInsert_nodup l [] (by simpa using h)
  simpa [dictFromPairs] using this

theorem sortPairsAsc_of_chain :
    ∀ (l : List (Nat × String)), List.Chain' (fun p q => p.1 < q.1) l →
      sortPairsAsc l = l := by
  intro l
  induction l with
  | nil => intro _; rfl
  | cons p l ih =>
    intro h
    show insertPairAsc p (sortPairsAsc l) = p :: l
    rw [ih h.tail]
    cases l with
    | nil => rfl
    | cons q l' =>
      have hpq : p.1 < q.1 := (List.chain'_cons.1 h).1
      simp [insertPairAsc, Nat.le_of_lt hpq]

theorem chain_zip_range' :
    ∀ (b : List String) (n : Nat),
      List.Chain' (fun p q : Nat × String => p.1 < q.1) ((List.range' n b.length).zip b) := by
  intro b
  induction b with
  | nil => intro n; simp
  | cons x b ih =>
    intro n
    rw [List.length_cons, List.range'_succ, List.zip_cons_cons]
    cases b with
    | nil => simp
    | cons y b' =>
      rw [List.length_cons, List.range'_succ, List.zip_cons_cons]
      refine List.chain'_cons.2 ⟨by omega, ?_⟩
      have hih := ih (n + 1)
      rw [List.length_cons, List.range'_succ, List.zip_cons_cons] at hih
      exact hih

/-- C3: the reference list has exactly one entry per assigned number, in
ascending numeric order `1..N`; each entry is produced by `refLine`, which
formats a matching record or emits the missing-metadata flag string. -/
theorem c3_reference_list_entries :
    ∀ (journal : JournalSpec) (drafts : String → Option String) (plan : CitationPlan)
      (incl : Bool),
      (number_drafts_and_build_references journal drafts plan incl).2
        = (specMap (sectionCiteKeys (processedTexts incl drafts))).map
            (fun p => refLine plan p.2 p.1)
      ∧ (specMap (sectionCiteKeys (processedTexts incl drafts))).map Prod.snd
          = List.range' 1 (firstOccs (sectionCiteKeys (processedTexts incl drafts))).length := by
  intro journal drafts plan incl
  refine ⟨?_, ?_⟩
  · have hr : (numberSections journal.references.in_text_format
        (processedTexts incl drafts) [] 1).2.1
          = specMap (sectionCiteKeys (processedTexts incl drafts)) := by
      rw [numberSections_eq, extendMap_nil_one]
    have h1 : (specMap (sectionCiteKeys (processedTexts incl drafts))).map
        (fun p => (p.2, p.1))
          = (List.range' 1 (firstOccs (sectionCiteKeys (processedTexts incl drafts))).length).zip
              (firstOccs (sectionCiteKeys (processedTexts incl drafts))) := by
      simp only [specMap]
      exact zip_swap_pairs _ _
    have h2 : dictFromPairs
        ((List.range' 1 (firstOccs (sectionCiteKeys (processedTexts incl drafts))).length).zip
          (firstOccs (sectionCiteKeys (processedTexts incl drafts))))
          = (List.range' 1 (firstOccs (sectionCiteKeys (processedTexts incl drafts))).length).zip
              (firstOccs (sectionCiteKeys (processedTexts incl drafts))) := by
      apply dictFromPairs_nodup
      rw [map_fst_zip_range'_nat]
      exact List.nodup_range' 1 _
    have h3 : sortPairsAsc
        ((List.range' 1 (firstOccs (sectionCiteKeys (processedTexts incl drafts))).length).zip
          (firstOccs (sectionCiteKeys (processedTexts incl drafts))))
          = (List.range' 1 (firstOccs (sectionCiteKeys (processedTexts incl drafts))).length).zip
              (firstOccs (sectionCiteKeys (processedTexts incl drafts))) :=
      sortPairsAsc_of_chain _ (chain_zip_range' _ 1)
    show (sortPairsAsc (dictFromPairs
        ((numberSections journal.references.in_text_format
          (processedTexts incl drafts) [] 1).2.1.map (fun p => (p.2, p.1))))).map
            (fun p => refLine plan p.1 p.2) = _
    rw [hr, h1, h2, h3, ← zip_swap_pairs, List.map_map]
    rfl
  · simpa [specMap] using
      map_snd_zip_range' (firstOccs (sectionCiteKeys (processedTexts incl drafts))) 1

/-- C1: the two-section end-to-end scenario — bracket style, canonical order,
two placeholders in Introduction and a repeated one in Methods — yields the
renumbered texts and a two-entry reference list numbered 1 and 2 in order. -/
theorem c1_end_to_end_scenario :
    number_drafts_and_build_references
      ⟨"J", "Original Article", ⟨"Vancouver", 30, "bracket"⟩⟩
      (fun s =>
        if s = "Introduction" then
          some "Prior work \x7bcite:PMID:111\x7d showed X. \x7bcite:DOI:10.1/ab\x7d confirmed it."
        else if s = "Methods" then some "We repeated \x7bcite:PMID:111\x7d."
        else none)
      ⟨30, []⟩ false
      = ([("Introduction", "Prior work [1] showed X. [2] confirmed it."),
          ("Methods", "We repeated [1].")],
         ["1. PMID:111 (Missing metadata; please fix in CitationPlan).",
          "2. DOI:10.1/ab (Missing metadata; please fix in CitationPlan)."]) := by
  decide

/-- C6: with `1..6` authors the segment is all of them joined by a comma and a
trailing period (no truncation); with more than 6 it is the first six followed
by `, et al.`; with no authors the segment is empty (and hence omitted). -/
theorem c6_author_et_al_truncation :
    ∀ (authors : List String),
      (authors = [] → _format_authors authors = "")
      ∧ (authors ≠ [] → authors.length ≤ 6 →
          _format_authors authors = joinSep ", " authors ++ ".")
      ∧ (6 < authors.length →
          _format_authors authors = joinSep ", " (authors.take 6) ++ ", et al.") := by
  intro authors
  refine ⟨?_, ?_, ?_⟩
  · intro h; simp [_format_authors, h]
  · intro h1 h2; simp [_format_authors, h1, h2]
  · intro h
    have hne : authors ≠ [] := by
      intro e; subst e; simp at h
    rw [_format_authors, if_neg hne, if_neg (by omega : ¬ authors.length ≤ 6)]

/-- Witness for C6 at a seven-author, a one-author and an empty list. -/
theorem c6_author_et_al_truncation_witness :
    _format_authors ["A", "B", "C", "D", "E", "F", "G"]
        = joinSep ", " (["A", "B", "C", "D", "E", "F", "G"].take 6) ++ ", et al."
    ∧ _format_authors ["A"] = joinSep ", " ["A"] ++ "."
    ∧ _format_authors [] = "" :=
  ⟨(c6_author_et_al_truncation _).2.2 (by decide),
   (c6_author_et_al_truncation _).2.1 (by decide) (by decide),
   (c6_author_et_al_truncation _).1 rfl⟩

/-- C7: the similarity score is the Jaccard index, lies in `[0, 1]`, is `0`
when both fingerprint sets are empty, and is `1` on equal non-empty sets. -/
theorem c7_jaccard_contract :
    ∀ (a b : Finset Nat),
      jaccard a b = ((a ∩ b).card : ℚ) / ((a ∪ b).card : ℚ)
      ∧ 0 ≤ jaccard a b ∧ jaccard a b ≤ 1
      ∧ (a = ∅ → b = ∅ → jaccard a b = 0)
      ∧ (a = b → a ≠ ∅ → jaccard a b = 1) := by
  intro a b
  have hform : jaccard a b = ((a ∩ b).card : ℚ) / ((a ∪ b).card : ℚ) := by
    unfold jaccard
    by_cases h : a = ∅ ∧ b = ∅
    · rw [if_pos h]
      rcases h with ⟨ha, hb⟩
      subst ha; subst hb
      simp
    · rw [if_neg h]
      by_cases hu : (a ∪ b).card ≠ 0
      · rw [if_pos hu]
      · rw [if_neg hu]
        push_neg at hu
        rw [hu]
        simp
  refine ⟨hform, ?_, ?_, ?_, ?_⟩
  · rw [hform]; positivity
  · rw [hform]
    refine div_le_one_of_le₀ ?_ (by positivity)
    exact_mod_cast Finset.card_le_card Finset.inter_subset_union
  · intro ha hb; subst ha; subst hb; simp [jaccard]
  · intro hab hne
    subst hab
    rw [hform]
    simp only [Finset.inter_self, Finset.union_self]
    rw [div_self]
    exact_mod_cast Finset.card_ne_zero.2 (Finset.nonempty_iff_ne_empty.2 hne)

/-- Witness for C7 on a concrete non-empty set and on two empty sets. -/
theorem c7_jaccard_contract_witness :
    jaccard ({1, 2} : Finset Nat) {1, 2} = 1 ∧ jaccard (∅ : Finset Nat) ∅ = 0 :=
  ⟨(c7_jaccard_contract {1, 2} {1, 2}).2.2.2.2 rfl (by decide),
   (c7_jaccard_contract ∅ ∅).2.2.2.1 rfl rfl⟩

/-- C8: a text with fewer than `k` tokens fingerprints to the empty set, for
every `k` and `window`, without error. -/
theorem c8_short_text_empty_fingerprints :
    ∀ (text : String) (k window : Nat), (_tokens text).length < k →
      winnow_fingerprints text k window = ∅ := by
  intro text k window h
  simp [winnow_fingerprints, h]

/-- Witness for C8: `"hi there"` has 2 tokens, fewer than the default `k = 5`. -/
theorem c8_short_text_empty_fingerprints_witness :
    winnow_fingerprints "hi there" 5 4 = ∅ :=
  c8_short_text_empty_fingerprints "hi there" 5 4 (by decide)

/-- C10: when the shingle count `t - k + 1` is at most the window size, the
winnowing stage is skipped and the fingerprint set is all shingle hashes. -/
theorem c10_few_shingles_skip_winnowing :
    ∀ (text : String) (k window : Nat), k ≤ (_tokens text).length →
      (_tokens text).length - k + 1 ≤ window →
      winnow_fingerprints text k window = (shingleHashes (_tokens text) k).toFinset
      ∧ (shingleHashes (_tokens text) k).length = (_tokens text).length - k + 1 := by
  intro text k window h1 h2
  have hlen : (shingleHashes (_tokens text) k).length = (_tokens text).length - k + 1 := by
    simp [shingleHashes]
  refine ⟨?_, hlen⟩
  simp only [winnow_fingerprints]
  rw [if_neg (by omega), if_pos (by rw [hlen]; exact h2)]

/-- Witness for C10: six tokens, `k = 5`, two shingles, window 4. -/
theorem c10_few_shingles_skip_winnowing_witness :
    winnow_fingerprints "a b c d e f" 5 4 = (shingleHashes (_tokens "a b c d e f") 5).toFinset
    ∧ (shingleHashes (_tokens "a b c d e f") 5).length = (_tokens "a b c d e f").length - 5 + 1 :=
  c10_few_shingles_skip_winnowing "a b c d e f" 5 4 (by decide) (by decide)

/-! Lemmas for the similarity pipeline. -/

theorem mem_insertDesc (x p : SimilarityResult) :
    ∀ (l : List SimilarityResult), x ∈ insertDesc p l ↔ x = p ∨ x ∈ l := by
  intro l
  induction l with
  | nil => simp [insertDesc]
  | cons q l ih =>
    simp only [insertDesc]
    split
    · simp
    · simp [ih]
      tauto

theorem mem_sortByScoreDesc (x : SimilarityResult) :
    ∀ (l : List SimilarityResult), x ∈ sortByScoreDesc l ↔ x ∈ l := by
  intro l
  induction l with
  | nil => simp [sortByScoreDesc]
  | cons p l ih =>
    show x ∈ insertDesc p (sortByScoreDesc l) ↔ _
    rw [mem_insertDesc, ih]
    simp

theorem winnow_foldl_fps_subset :
    ∀ (l : List Nat) (hashes : List Nat) (window : Nat) (s : WinnowState),
      s.fps ⊆ (l.foldl (winnowStep hashes window) s).fps := by
  intro l
  induction l with
  | nil => intro hashes window s; exact fun x hx => hx
  | cons i l ih =>
    intro hashes window s
    refine subset_trans ?_ (ih hashes window (winnowStep hashes window s i))
    simp only [winnowStep]
    split
    · exact fun x hx => Finset.mem_insert_of_mem hx
    · exact fun x hx => hx

theorem winnowLoop_nonempty (hashes : List Nat) (window : Nat) :
    winnowLoop hashes window ≠ ∅ := by
  unfold winnowLoop
  rw [show hashes.length - window + 1 = (hashes.length - window) + 1 from rfl,
    List.range_succ_eq_map]
  simp only [List.foldl_cons]
  have h1 : (winnowStep hashes window ⟨∅, none, -1⟩ 0).fps
      = {minList ((hashes.drop 0).take window)} := by
    simp only [winnowStep]
    rw [if_pos]
    · rfl
    · left
      intro he
      simp at he
  intro he
  have hsub := winnow_foldl_fps_subset (List.map Nat.succ (List.range (hashes.length - window)))
    hashes window (winnowStep hashes window ⟨∅, none, -1⟩ 0)
  rw [he, h1] at hsub
  exact absurd (hsub (Finset.mem_singleton_self _)) (Finset.not_mem_empty _)

theorem winnow_fingerprints_nonempty (text : String) (k window : Nat)
    (h : k ≤ (_tokens text).length) : winnow_fingerprints text k window ≠ ∅ := by
  have hlen : (shingleHashes (_tokens text) k).length = (_tokens text).length - k + 1 := by
    simp [shingleHashes]
  simp only [winnow_fingerprints]
  rw [if_neg (by omega)]
  by_cases hw : (shingleHashes (_tokens text) k).length ≤ window
  · rw [if_pos hw]
    rw [ne_eq, List.toFinset_eq_empty_iff]
    intro e
    rw [e] at hlen
    simp at hlen
  · rw [if_neg hw]
    exact winnowLoop_nonempty _ _

theorem jaccard_self (a : Finset Nat) (h : a ≠ ∅) : jaccard a a = 1 := by
  have hcnz : ((a.card : ℚ)) ≠ 0 := by
    exact_mod_cast Finset.card_ne_zero.2 (Finset.nonempty_iff_ne_empty.2 h)
  unfold jaccard
  rw [if_neg (by intro hh; exact h hh.1)]
  rw [if_pos (by
    rw [Finset.union_self]
    exact Finset.card_ne_zero.2 (Finset.nonempty_iff_ne_empty.2 h))]
  rw [Finset.inter_self, Finset.union_self, div_self hcnz]

theorem mem_replaceCRLF :
    ∀ (l : List Char) (c : Char), c ∈ replaceCRLF l → c ∈ l := by
  intro l
  induction l using replaceCRLF.induct with
  | case1 => intro c h; simp [replaceCRLF] at h
  | case2 a => intro c h; simpa [replaceCRLF] using h
  | case3 a b rest hab ih =>
    intro c h
    rw [replaceCRLF, if_pos hab] at h
    rcases List.mem_cons.1 h with h | h
    · simp [h, hab.2]
    · simp [ih c h]
  | case4 a b rest hab ih =>
    intro c h
    rw [replaceCRLF, if_neg hab] at h
    rcases List.mem_cons.1 h with h | h
    · simp [h]
    · have := ih c h
      simp at this
      simp [this]

theorem mem_collapseSpaceTabAux :
    ∀ (l : List Char) (st : Bool) (c : Char),
      c ∈ collapseSpaceTabAux st l → c ∈ l ∨ c = ' ' := by
  intro l
  induction l with
  | nil => intro st c h; simp [collapseSpaceTabAux] at h
  | cons a l ih =>
    intro st c h
    simp only [collapseSpaceTabAux] at h
    by_cases ha : (a == ' ' || a == '\t') = true
    · rw [if_pos ha] at h
      by_cases hst : st = true
      · rw [if_pos hst] at h
        rcases ih true c h with h | h
        · exact Or.inl (by simp [h])
        · exact Or.inr h
      · rw [if_neg hst] at h
        rcases List.mem_cons.1 h with h | h
        · exact Or.inr h
        · rcases ih true c h with h | h
          · exact Or.inl (by simp [h])
          · exact Or.inr h
    · rw [if_neg ha] at h
      rcases List.mem_cons.1 h with h | h
      · exact Or.inl (by simp [h])
      · rcases ih false c h with h | h
        · exact Or.inl (by simp [h])
        · exact Or.inr h

theorem mem_collapseNLAux :
    ∀ (l : List Char) (cnt : Nat) (c : Char), c ∈ collapseNLAux cnt l → c ∈ l := by
  intro l
  induction l with
  | nil => intro cnt c h; simp [collapseNLAux] at h
  | cons a l ih =>
    intro cnt c h
    simp only [collapseNLAux] at h
    by_cases ha : (a == '\n') = true
    · rw [if_pos ha] at h
      have ha' : a = '\n' := by simpa using ha
      by_cases hcnt : cnt + 1 ≤ 2
      · rw [if_pos hcnt] at h
        rcases List.mem_cons.1 h with h | h
        · simp [h, ha']
        · simp [ih _ c h]
      · rw [if_neg hcnt] at h
        simp [ih _ c h]
    · rw [if_neg ha] at h
      rcases List.mem_cons.1 h with h | h
      · simp [h]
      · simp [ih _ c h]

theorem mem_pyStripL (l : List Char) (c : Char) (h : c ∈ pyStripL l) : c ∈ l := by
  simp only [pyStripL] at h
  rw [List.mem_reverse] at h
  have h1 := (List.dropWhile_sublist (l := (l.dropWhile isPyWS).reverse) isPyWS).subset h
  rw [List.mem_reverse] at h1
  exact (List.dropWhile_sublist (l := l) isPyWS).subset h1

theorem splitAlnum_none_of_no_alnum :
    ∀ (l : List Char), (∀ c ∈ l, isAlnumLower c = false) → splitAlnumAux none l = [] := by
  intro l
  induction l with
  | nil => intro _; rfl
  | cons a l ih =>
    intro h
    have ha := h a (by simp)
    simp only [splitAlnumAux, ha]
    exact ih (fun c hc => h c (by simp [hc]))

theorem exists_alnum_of_tokens_ne_nil (t : String) (h : _tokens t ≠ []) :
    ∃ c ∈ (normalize_whitespace (pyLower t)).data, isAlnumLower c = true := by
  by_contra hx
  push_neg at hx
  apply h
  have : splitAlnumRuns (normalize_whitespace (pyLower t)).data = [] := by
    apply splitAlnum_none_of_no_alnum
    intro c hc
    have := hx c hc
    simpa using this
  simp [_tokens, this]

theorem pyWS_toLower (c : Char) (h : isPyWS c = true) : c.toLower = c := by
  simp [isPyWS] at h
  rcases h with ((((h | h) | h) | h) | h) | h <;> subst h <;> decide

theorem pyWS_not_alnum (c : Char) (h : isPyWS c = true) : isAlnumLower c = false := by
  simp [isPyWS] at h
  rcases h with ((((h | h) | h) | h) | h) | h <;> subst h <;> decide

theorem dropWhile_ne_nil_of_mem (p : Char → Bool) :
    ∀ (l : List Char) (c : Char), c ∈ l → p c = false → l.dropWhile p ≠ [] := by
  intro l
  induction l with
  | nil => intro c h _; simp at h
  | cons a l ih =>
    intro c h hc
    by_cases hpa : p a = true
    · rw [List.dropWhile_cons_of_pos hpa]
      rcases List.mem_cons.1 h with h | h
      · subst h; rw [hpa] at hc; simp at hc
      · exact ih c h hc
    · rw [List.dropWhile_cons_of_neg hpa]
      simp

theorem pyStripL_ne_nil (l : List Char) (c : Char) (hc : c ∈ l) (hw : isPyWS c = false) :
    pyStripL l ≠ [] := by
  have hsplit := List.takeWhile_append_dropWhile isPyWS l
  have hcd : c ∈ l.dropWhile isPyWS := by
    rcases List.mem_append.1 (by rw [hsplit]; exact hc) with h | h
    · have := List.mem_takeWhile_imp h
      rw [this] at hw
      simp at hw
    · exact h
  have h2 : (l.dropWhile isPyWS).reverse.dropWhile isPyWS ≠ [] :=
    dropWhile_ne_nil_of_mem isPyWS _ c (List.mem_reverse.2 hcd) hw
  simp [pyStripL, h2]

theorem tokens_ne_nil_not_skip (t : String) (h : _tokens t ≠ []) : skipText t = false := by
  obtain ⟨c, hc, hal⟩ := exists_alnum_of_tokens_ne_nil t h
  have hc1 : c ∈ pyStripL (collapseNewlines (collapseSpaceTab (replaceCRLF (pyLower t).data))) :=
    hc
  have hc2 := mem_pyStripL _ _ hc1
  have hc3 := mem_collapseNLAux _ _ _ hc2
  have hc4 := mem_collapseSpaceTabAux _ _ _ hc3
  have hcsp : c ≠ ' ' := by
    intro e
    subst e
    exact absurd hal (by decide)
  have hc5 : c ∈ replaceCRLF (pyLower t).data := by
    rcases hc4 with h4 | h4
    · exact h4
    · exact absurd h4 hcsp
  have hc6 := mem_replaceCRLF _ _ hc5
  obtain ⟨c₀, hc₀, hlc⟩ := List.mem_map.1 hc6
  have h0ws : isPyWS c₀ = false := by
    cases hws : isPyWS c₀ with
    | false => rfl
    | true =>
      have he := pyWS_toLower c₀ hws
      rw [he] at hlc
      subst hlc
      rw [pyWS_not_alnum c₀ hws] at hal
      simp at hal
  have ht1 : t ≠ "" := by
    intro e
    subst e
    simp at hc₀
  have ht2 : pyStrip t ≠ "" := by
    intro e
    have hd : pyStripL t.data = [] := by
      have := congrArg String.data e
      simpa [pyStrip] using this
    exact pyStripL_ne_nil t.data c₀ hc₀ h0ws hd
  simp [skipText, ht1, ht2]

/-- Counterexample to C4 as stated: `"hello"` equals itself and is non-empty,
yet its token count (1) is below `k = 5`, so both fingerprint sets are empty,
the score is `0`, not `1.0`, and with threshold `1 ≤ 1.0` the pair is absent
from the report. -/
theorem c4_exact_match_counterexample :
    ¬ (similarity_score "hello" "hello" 5 4 = 1)
    ∧ similarity_report [("draft", "hello")] [("source", "hello")] 1 = [] := by
  constructor
  · decide
  · decide


/-- C4 amended: a generated text equal to a source text scores `1.0` and is
reported for every threshold `≤ 1`, provided the shared text has at least
`k = 5` tokens (shorter texts fingerprint to the empty set and score `0`). -/
theorem c4_exact_match_amended :
    ∀ (generated sources : List (String × String)) (threshold : ℚ)
      (ga sb ta tb : String),
      (ga, ta) ∈ generated → (sb, tb) ∈ sources → ta = tb →
      5 ≤ (_tokens ta).length → threshold ≤ 1 →
      similarity_score ta tb 5 4 = 1
      ∧ SimilarityResult.mk ga sb 1 ∈ similarity_report generated sources threshold := by
  intro generated sources threshold ga sb ta tb hg hs hteq htok hth
  subst hteq
  have hne : winnow_fingerprints ta 5 4 ≠ ∅ := winnow_fingerprints_nonempty ta 5 4 htok
  have hscore : similarity_score ta ta 5 4 = 1 := jaccard_self _ hne
  refine ⟨hscore, ?_⟩
  have hskip : (!skipText ta) = true := by
    rw [tokens_ne_nil_not_skip ta (by intro e; rw [e] at htok; simp at htok)]
    rfl
  simp only [similarity_report]
  rw [mem_sortByScoreDesc, List.mem_flatten]
  refine ⟨_, List.mem_map.2 ⟨(ga, ta), List.mem_filter.2 ⟨hg, hskip⟩, rfl⟩, ?_⟩
  rw [List.mem_filterMap]
  refine ⟨(sb, ta), List.mem_filter.2 ⟨hs, hskip⟩, ?_⟩
  show (if threshold ≤ similarity_score ta ta 5 4 then
      some (SimilarityResult.mk ga sb (similarity_score ta ta 5 4)) else none)
    = some (SimilarityResult.mk ga sb 1)
  rw [hscore, if_pos hth]

/-- Witness for the amended C4 on a five-token text with threshold `1/2`. -/
theorem c4_exact_match_amended_witness :
    similarity_score "alpha beta gamma delta epsilon" "alpha beta gamma delta epsilon" 5 4 = 1
    ∧ SimilarityResult.mk "Intro" "src1" 1 ∈
        similarity_report [("Intro", "alpha beta gamma delta epsilon")]
          [("src1", "alpha beta gamma delta epsilon")] (1 / 2) :=
  c4_exact_match_amended [("Intro", "alpha beta gamma delta epsilon")]
    [("src1", "alpha beta gamma delta epsilon")] (1 / 2)
    "Intro" "src1" "alpha beta gamma delta epsilon" "alpha beta gamma delta epsilon"
    (by decide) (by decide) rfl (by decide) (by norm_num)

/-! Lemmas for the reference formatter on title-only records. -/

theorem noTwoWS_tail (a : Char) (l : List Char) (h : noTwoWS (a :: l) = true) :
    noTwoWS l = true := by
  cases l with
  | nil => rfl
  | cons b l' =>
    simp only [noTwoWS, Bool.and_eq_true] at h
    exact h.2

theorem noTwoWS_pair (a b : Char) (l : List Char) (h : noTwoWS (a :: b :: l) = true) :
    ¬ (isPyWS a = true ∧ isPyWS b = true) := by
  intro hab
  simp only [noTwoWS, Bool.and_eq_true] at h
  rw [hab.1, hab.2] at h
  simp at h

theorem noTwoWS_append_left :
    ∀ (a b : List Char), noTwoWS (a ++ b) = true → noTwoWS a = true := by
  intro a
  induction a with
  | nil => intro b _; rfl
  | cons x a' ih =>
    intro b h
    cases a' with
    | nil => rfl
    | cons y a'' =>
      have h' : noTwoWS (x :: y :: (a'' ++ b)) = true := h
      have h1 : noTwoWS ((y :: a'') ++ b) = true := noTwoWS_tail x _ h'
      have h2 := ih b h1
      simp only [noTwoWS, Bool.and_eq_true] at h' ⊢
      exact ⟨h'.1, h2⟩

theorem noTwoWS_append_dot :
    ∀ (a : List Char) (c : Char), noTwoWS a = true → isPyWS c = false →
      noTwoWS (a ++ [c]) = true := by
  intro a
  induction a with
  | nil => intro c _ _; rfl
  | cons x a' ih =>
    intro c h hc
    cases a' with
    | nil =>
      simp [noTwoWS, hc]
    | cons y a'' =>
      have h1 := noTwoWS_tail x _ h
      have h2 := ih c h1 hc
      simp only [noTwoWS, Bool.and_eq_true] at h ⊢
      exact ⟨h.1, h2⟩

theorem collapseWSAux_id :
    ∀ (l : List Char), noTwoWS l = true →
      (collapseWSAux WSState.normal l = l
       ∧ ∀ w, (∀ x, l.head? = some x → isPyWS x = false) →
           collapseWSAux (WSState.pending w) l = w :: l) := by
  intro l
  induction l with
  | nil => exact fun _ => ⟨rfl, fun w _ => rfl⟩
  | cons c cs ih =>
    intro h
    obtain ⟨ihn, ihp⟩ := ih (noTwoWS_tail c cs h)
    constructor
    · simp only [collapseWSAux]
      by_cases hc : isPyWS c = true
      · rw [if_pos hc]
        have hhead : ∀ x, cs.head? = some x → isPyWS x = false := by
          intro x hx
          cases cs with
          | nil => simp at hx
          | cons y cs' =>
            have hxy : y = x := by simpa using hx
            rw [← hxy]
            cases hy : isPyWS y with
            | false => rfl
            | true => exact absurd ⟨hc, hy⟩ (noTwoWS_pair c y cs' h)
        exact ihp c hhead
      · rw [if_neg hc, ihn]
    · intro w hw
      simp only [collapseWSAux]
      have hcws : isPyWS c = false := hw c rfl
      rw [if_neg (by simp [hcws]), ihn]

theorem collapseWS_id (l : List Char) (h : noTwoWS l = true) : collapseWS l = l :=
  (collapseWSAux_id l h).1

theorem dropWhile_id_of_head (l : List Char)
    (h : ∀ x, l.head? = some x → isPyWS x = false) : l.dropWhile isPyWS = l := by
  cases l with
  | nil => rfl
  | cons c cs => exact List.dropWhile_cons_of_neg (by simp [h c rfl])

theorem pyStripL_id (l : List Char)
    (h1 : ∀ x, l.head? = some x → isPyWS x = false)
    (h2 : ∀ x, l.getLast? = some x → isPyWS x = false) : pyStripL l = l := by
  unfold pyStripL
  rw [dropWhile_id_of_head l h1]
  rw [dropWhile_id_of_head l.reverse
    (by intro x hx; rw [List.head?_reverse] at hx; exact h2 x hx)]
  exact List.reverse_reverse l

theorem rstripDots_decomp (l : List Char) :
    ∃ d, l = rstripDotsL l ++ d ∧ ∀ c ∈ d, c = '.' := by
  refine ⟨(l.reverse.takeWhile (fun c => c == '.')).reverse, ?_, ?_⟩
  · have hsplit := List.takeWhile_append_dropWhile (fun c => c == '.') l.reverse
    have h2 := congrArg List.reverse hsplit
    rw [List.reverse_append, List.reverse_reverse] at h2
    exact h2.symm
  · intro c hc
    rw [List.mem_reverse] at hc
    have := List.mem_takeWhile_imp hc
    simpa using this

/-- Counterexample to C5 as stated: for the record whose only field is the
title `"..."`, stripping trailing periods and appending one period would give
`"."`, but the formatter emits `""` (the title segment is omitted once the
stripped title is empty). -/
theorem c5_title_only_counterexample :
    ¬ (format_vancouver_reference (titleOnly "...") = pyRstripDots "..." ++ ".") := by
  decide

/-- C5 amended: the formatter is total by construction, and for a record with
only a title — provided the title has no leading whitespace, no two adjacent
whitespace characters, and is non-empty once trailing periods are stripped —
the output is exactly the stripped title plus one period.  (The appended
period keeps the final strip away from the right end, so trailing whitespace
in the title needs no exclusion.) -/
theorem c5_title_only_amended :
    ∀ (t : String),
      noTwoWS t.data = true →
      (t.data.head?.all (fun c => !isPyWS c)) = true →
      ¬ pyRstripDots t = "" →
      format_vancouver_reference (titleOnly t) = pyRstripDots t ++ "." := by
  intro t hnw hhead htitle
  obtain ⟨d, hdec, hdot⟩ := rstripDots_decomp t.data
  have hrdne : rstripDotsL t.data ≠ [] := by
    intro e
    apply htitle
    apply String.ext
    simp [pyRstripDots, e]
  have hhead' : ∀ x, (rstripDotsL t.data ++ ['.']).head? = some x → isPyWS x = false := by
    intro x hx
    cases hrd : rstripDotsL t.data with
    | nil => exact absurd hrd hrdne
    | cons a rd' =>
      rw [hrd] at hx
      have hxa : a = x := by simpa using hx
      have hth : t.data.head? = some a := by
        rw [hdec, hrd]
        rfl
      have hh := hhead
      rw [hth, Option.all_some] at hh
      rw [← hxa]
      simpa using hh
  have hlast' : ∀ x, (rstripDotsL t.data ++ ['.']).getLast? = some x → isPyWS x = false := by
    intro x hx
    rw [List.getLast?_concat] at hx
    have : '.' = x := by simpa using hx
    rw [← this]
    decide
  have hnw' : noTwoWS (rstripDotsL t.data ++ ['.']) = true := by
    apply noTwoWS_append_dot
    · exact noTwoWS_append_left _ d (by rw [← hdec]; exact hnw)
    · decide
  have hxdata : (pyRstripDots t ++ ".").data = rstripDotsL t.data ++ ['.'] := by
    rw [String.data_append]
    rfl
  have hpsx : pyStrip (pyRstripDots t ++ ".") = pyRstripDots t ++ "." := by
    apply String.ext
    show pyStripL (pyRstripDots t ++ ".").data = (pyRstripDots t ++ ".").data
    rw [hxdata]
    exact pyStripL_id _ hhead' hlast'
  have hxne : ¬ (pyRstripDots t ++ "." = "") := by
    intro e
    have he := congrArg String.data e
    rw [hxdata] at he
    simp at he
  have hfilter : (!(pyStrip (pyRstripDots t ++ ".") == "")) = true := by
    rw [hpsx]
    simp [hxne]
  have hmkx : String.mk (rstripDotsL t.data ++ ['.']) = pyRstripDots t ++ "." := by
    apply String.ext
    rw [hxdata]
  simp only [format_vancouver_reference, titleOnly, _format_authors, optTruthy, optStr,
    yearStr]
  simp [htitle, hfilter, joinSep]
  show pyStrip (String.mk (collapseWS (rstripDotsL t.data ++ ['.']))) = pyRstripDots t ++ "."
  rw [collapseWS_id _ hnw', hmkx, hpsx]

/-- Witness for the amended C5 on the title `"My Title"`. -/
theorem c5_title_only_amended_witness :
    format_vancouver_reference (titleOnly "My Title") = pyRstripDots "My Title" ++ "." :=
  c5_title_only_amended "My Title" (by decide) (by decide) (by decide)
